import Mathlib

/-!
Verification development for the catchup ingester
(`src/src-tauri/src/market_data/historical/catchup_ingester.py`).

Instants are modelled as natural numbers of milliseconds since an arbitrary
UTC epoch (Python `datetime` arithmetic on UTC instants; the spec's finest
granularity is the millisecond).  Prices are modelled as exact rationals:
the Python code computes `raw / 1000.0` etc. in IEEE-754 binary64, whose
relative error is below what the `DECIMAL(10,5)` storage of the prices can
observe, so exact rational division is the faithful idealisation.  The LZMA
decompressor and the database are external capabilities (spec section 6) and
are passed in as function parameters.
-/

/-- Milliseconds in `timedelta(seconds=1)`. -/
def msPerSec : Nat := 1000

/-- Milliseconds in `timedelta(hours=1)`. -/
def msPerHour : Nat := 3600000

/-- Milliseconds in `timedelta(days=1)`. -/
def msPerDay : Nat := 86400000

/-- One planned download, mirroring the dict literals built in
`catchup_gap` (lines 320-325 and 330-335): `date` is the cursor instant,
`hour` is `current.hour` for hourly files and `None` for daily files. -/
structure FetchUnit where
  date : Nat
  hour : Option Nat
  daily : Bool
  expected_hours : Nat
deriving DecidableEq, Repr

/-- The fields of a fetch unit that the specification's data model exposes:
window start, granularity (daily?) and expected hour count. -/
structure SpecUnit where
  windowStart : Nat
  daily : Bool
  expectedHourCount : Nat
deriving DecidableEq, Repr

/-- Project a planner unit onto the specification's view of it. -/
def toSpec (u : FetchUnit) : SpecUnit :=
  ⟨u.date, u.daily, u.expected_hours⟩

/-- The planning loop of `catchup_gap` (lines 312-336).  The Python `while`
loop is embedded with an explicit fuel argument; each iteration advances the
cursor by at least one hour, so any fuel larger than the number of hour
steps up to `to` gives the loop's value (see `plan_loop_stable`).
`current - current % msPerDay` is `current.replace(hour=0)` (the cursor is
always hour-aligned), and `day_start + msPerDay - msPerSec` is
`day_start + timedelta(days=1) - timedelta(seconds=1)`. -/
def plan_loop (toT : Nat) : Nat → Nat → List FetchUnit
  | 0, _ => []
  | fuel + 1, current =>
    if current ≤ toT then
      if current = current - current % msPerDay ∧
          current - current % msPerDay + msPerDay - msPerSec ≤ toT then
        ⟨current, none, true, 24⟩ ::
          plan_loop toT fuel (current - current % msPerDay + msPerDay)
      else
        ⟨current, some (current % msPerDay / msPerHour), false, 1⟩ ::
          plan_loop toT fuel (current + msPerHour)
    else []

/-- The planning loop started at an arbitrary cursor, with sufficient fuel. -/
def plan_from (current toT : Nat) : List FetchUnit :=
  plan_loop toT (toT / msPerHour + 2) current

/-- The download plan of `catchup_gap`: the cursor starts at `from_time`
truncated to the hour (`replace(minute=0, second=0, microsecond=0)`,
line 310). -/
def plan_ms (from_time to_time : Nat) : List FetchUnit :=
  plan_from (from_time - from_time % msPerHour) to_time

/-- Modelled from the spec: the planner walk exactly as claim C1 words it,
parameterised by the offset from a day's start to the "end of that calendar
day" (the claim says 23:59:59.999; the amended claim says 23:59:59).  The
cursor is compared with the start of its calendar day, a Daily unit advances
the cursor by exactly one day, an Hourly unit by one hour, and the loop
terminates when the cursor exceeds `to`. -/
def spec_walk (dayEndOffset toT : Nat) : Nat → Nat → List SpecUnit
  | 0, _ => []
  | fuel + 1, cursor =>
    if cursor ≤ toT then
      if cursor = cursor / msPerDay * msPerDay ∧
          cursor / msPerDay * msPerDay + dayEndOffset ≤ toT then
        ⟨cursor, true, 24⟩ :: spec_walk dayEndOffset toT fuel (cursor + msPerDay)
      else
        ⟨cursor, false, 1⟩ :: spec_walk dayEndOffset toT fuel (cursor + msPerHour)
    else []

/-- The spec-modelled walk started at an arbitrary cursor, with sufficient
fuel. -/
def spec_from (dayEndOffset cursor toT : Nat) : List SpecUnit :=
  spec_walk dayEndOffset toT (toT / msPerHour + 2) cursor

/-- Modelled from the spec: claim C1's planner, whose daily test uses the
day's end at 23:59:59.999. -/
def plan_spec999 (from_time to_time : Nat) : List SpecUnit :=
  spec_walk (23 * msPerHour + 59 * 60000 + 59 * msPerSec + 999) to_time
    (to_time / msPerHour + 2) (from_time / msPerHour * msPerHour)

/-- Modelled from the spec: the amended claim C1's planner, identical except
that the day's end is 23:59:59.000 (one second before the next midnight). -/
def plan_spec_sec (from_time to_time : Nat) : List SpecUnit :=
  spec_walk (23 * msPerHour + 59 * 60000 + 59 * msPerSec) to_time
    (to_time / msPerHour + 2) (from_time / msPerHour * msPerHour)

/-- Modelled from the spec: the plan claim C2 predicts for a day-aligned
window — one Daily unit per full day, then Hourly units for the partial
remainder, their number being the remainder's duration in hours rounded up
(the convention claim C3 makes explicit). -/
def claimPlanC2 (from_time to_time : Nat) : List SpecUnit :=
  (List.range ((to_time - from_time) / msPerDay)).map
    (fun i => ⟨from_time + i * msPerDay, true, 24⟩)
  ++ (List.range (((to_time - from_time) % msPerDay + msPerHour - 1) / msPerHour)).map
    (fun i => ⟨from_time + (to_time - from_time) / msPerDay * msPerDay + i * msPerHour,
      false, 1⟩)

/-- The hour-start instants whose archives a unit fetches: 24 consecutive
hours for a daily file, the single hour for an hourly file. -/
def unitHours (u : FetchUnit) : List Nat :=
  if u.daily then (List.range 24).map (fun k => u.date + k * msPerHour) else [u.date]

/-- All hour-start instants covered by a plan, in order. -/
def coveredHours (us : List FetchUnit) : List Nat :=
  (us.map unitHours).flatten

/-- The Daily units a day-aligned plan is expected to contain. -/
def dailyChain (start k : Nat) : List FetchUnit :=
  (List.range k).map (fun i => ⟨start + i * msPerDay, none, true, 24⟩)

/-! ## The binary tick decoder (`parse_bi5_data`, lines 192-237) -/

/-- One decoded tick record, mirroring the dict appended at lines 224-232. -/
structure Tick where
  time : Nat
  symbol : List Char
  ask : ℚ
  bid : ℚ
  ask_size : ℤ
  bid_size : ℤ
  source : List Char
deriving DecidableEq, Repr

/-- Big-endian unsigned 32-bit integer read at offset `i` of a byte list
(`struct.unpack('>3I2f', ...)` reads each `I` this way). -/
def u32be (l : List Nat) (i : Nat) : Nat :=
  l.getD i 0 * 16777216 + l.getD (i + 1) 0 * 65536 + l.getD (i + 2) 0 * 256 +
    l.getD (i + 3) 0

/-- Exact value of an IEEE-754 binary32 bit pattern as a rational;
`none` for the non-finite patterns (exponent 255), whose later use in
`int(...)` raises in Python.  For finite patterns the value is
`(-1)^s * significand * 2^(e-150)` written with a common denominator
`2^150`. -/
def f32_to_rat (bits : Nat) : Option ℚ :=
  let e := bits / 8388608 % 256
  let m := bits % 8388608
  if e = 255 then none
  else
    let mag : ℚ := ((if e = 0 then m * 2 else (8388608 + m) * 2 ^ e : ℕ) : ℚ) / 2 ^ 150
    some (if bits / 2 ^ 31 = 1 then -mag else mag)

/-- Python's `int()` applied to a (finite) float: truncation toward zero. -/
def py_int (q : ℚ) : ℤ :=
  if 0 ≤ q then Int.floor q else Int.ceil q

/-- The three-character string `'JPY'`. -/
def jpyChars : List Char := "JPY".toList

/-- The body of the record loop (lines 209-232): unpack one 20-byte chunk as
`(timestamp_ms, ask_raw, bid_raw, ask_vol, bid_vol)`, scale the prices by
1000 for symbols whose upper-cased name contains `'JPY'` and by 100000
otherwise, reconstruct the sizes with `int(vol * 1000000)`, and stamp the
tick at `base_time + timedelta(milliseconds=timestamp_ms)`.  `none` when a
volume is non-finite, in which case Python's `int()` raises and the whole
parse returns `[]`. -/
def make_tick (symbol : List Char) (base : Nat) (chunk : List Nat) : Option Tick :=
  let timestamp_ms := u32be chunk 0
  let ask_raw := u32be chunk 4
  let bid_raw := u32be chunk 8
  match f32_to_rat (u32be chunk 12), f32_to_rat (u32be chunk 16) with
  | some ask_vol, some bid_vol =>
    let jpy := jpyChars <:+: symbol.map Char.toUpper
    let ask_price : ℚ := if jpy then (ask_raw : ℚ) / 1000 else (ask_raw : ℚ) / 100000
    let bid_price : ℚ := if jpy then (bid_raw : ℚ) / 1000 else (bid_raw : ℚ) / 100000
    some { time := base + timestamp_ms, symbol := symbol, ask := ask_price,
           bid := bid_price, ask_size := py_int (ask_vol * 1000000),
           bid_size := py_int (bid_vol * 1000000), source := "dukascopy".toList }
  | _, _ => none

/-- The record loop of `parse_bi5_data` (lines 205-232): consume the
decompressed payload 20 bytes at a time, discarding a trailing chunk shorter
than one record (`if i + chunk_size > len(decompressed): break`).  `none`
models the exception a non-finite volume raises, caught at line 235. -/
def parse_records (symbol : List Char) (base : Nat) : List Nat → Option (List Tick)
  | b0 :: b1 :: b2 :: b3 :: b4 :: b5 :: b6 :: b7 :: b8 :: b9 ::
      b10 :: b11 :: b12 :: b13 :: b14 :: b15 :: b16 :: b17 :: b18 :: b19 :: rest =>
    match make_tick symbol base
        [b0, b1, b2, b3, b4, b5, b6, b7, b8, b9,
         b10, b11, b12, b13, b14, b15, b16, b17, b18, b19] with
    | some t => (parse_records symbol base rest).map (fun ts => t :: ts)
    | none => none
  | _ => some []

/-- The decoder `parse_bi5_data` (lines 192-237).  `decompress` is the external
`lzma.decompress` capability; `none` models the exception malformed input
raises, caught at line 235 with an empty result.  An empty input returns
`[]` at line 194-195 before any decompression. -/
def parse_bi5_data (decompress : List Nat → Option (List Nat))
    (compressed : List Nat) (symbol : List Char) (base : Nat) : List Tick :=
  if compressed = [] then []
  else
    match decompress compressed with
    | none => []
    | some payload =>
      match parse_records symbol base payload with
      | some ticks => ticks
      | none => []

/-! ## Progress reporting (`ProgressReporter`, lines 49-106) -/

/-- The counters of `ProgressReporter` (timing and memory fields are
wall-clock observations outside the model; every JSON progress event's
`ticks_processed` field is the post-update value of the counter here). -/
structure Progress where
  total_hours : Nat
  hours_completed : Nat
  ticks_processed : Nat
  failed_hours : List Nat
deriving DecidableEq, Repr

/-- Mirrors `ProgressReporter.update` (lines 61-66): add the deltas and append the
failed identifier when present. -/
def Progress.update (p : Progress) (hours ticks : Nat) (failed_hour : Option Nat) :
    Progress :=
  { p with
    hours_completed := p.hours_completed + hours
    ticks_processed := p.ticks_processed + ticks
    failed_hours :=
      match failed_hour with
      | some d => p.failed_hours ++ [d]
      | none => p.failed_hours }

/-- The terminal `"complete"` event (lines 92-106), minus the wall-clock
fields. -/
structure Report where
  status : String
  ticks_inserted : Nat
  ticks_processed : Nat
  hours_processed : Nat
  hours_failed : Nat
deriving DecidableEq, Repr

/-- Mirrors `ProgressReporter.final_report` (lines 92-106). -/
def final_report (p : Progress) (ticks_inserted : Nat) : Report :=
  { status := if p.failed_hours = [] then "success" else "partial"
    ticks_inserted := ticks_inserted
    ticks_processed := p.ticks_processed
    hours_processed := p.hours_completed
    hours_failed := p.failed_hours.length }

/-! ## The batched writer and the orchestration loop (`catchup_gap`) -/

/-- Mirrors `insert_batch` (lines 239-288): returns 0 for an empty batch (line
246-247), otherwise the affected-row count reported by the database, which
is the external persistence capability `insertCount`. -/
def insert_batch (insertCount : List Tick → Nat) (ticks : List Tick) : Nat :=
  if ticks = [] then 0 else insertCount ticks

/-- The buffer-check step at lines 394-398: when the buffer has reached the
batch size, persist exactly the first `batch_size` records once and drop
them from the buffer; otherwise do nothing.  Returns the new buffer and the
new `ticks_inserted` total. -/
def flush_step (batch_size : Nat) (insertCount : List Tick → Nat)
    (buffer : List Tick) (inserted : Nat) : List Tick × Nat :=
  if batch_size ≤ buffer.length then
    (buffer.drop batch_size, inserted + insert_batch insertCount (buffer.take batch_size))
  else (buffer, inserted)

/-- The orchestrator's per-run mutable state: the tick buffer, the `stats`
dict and the progress counters. -/
structure RunState where
  tick_buffer : List Tick
  ticks_inserted : Nat
  hours_processed : Nat
  progress : Progress
deriving DecidableEq, Repr

/-- Python's `datetime.replace(hour=0)` on an instant whose minutes, seconds and
microseconds may be arbitrary: clear the day offset but keep the sub-hour
part. -/
def replace_hour0 (d : Nat) : Nat :=
  d - d % msPerDay + d % msPerHour

/-- The body of the completion loop (lines 366-404) for one finished
download: decode (empty bytes are falsy at line 371 and treated like an
absent archive), filter to the closed window `[from_time, to_time]`
(lines 381-384), extend the buffer and report progress, run the buffer
check, and account the unit's expected hours. -/
def process_result (decompress : List Nat → Option (List Nat))
    (insertCount : List Tick → Nat) (symbol : List Char)
    (from_time to_time batch_size : Nat) (st : RunState)
    (r : FetchUnit × Option (List Nat)) : RunState :=
  let dl := r.1
  let st1 :=
    match r.2 with
    | some bytes =>
      if bytes = [] then
        { st with progress := st.progress.update dl.expected_hours 0 none }
      else
        let base := if dl.daily then replace_hour0 dl.date else dl.date
        let filtered := (parse_bi5_data decompress bytes symbol base).filter
          (fun tk : Tick => from_time ≤ tk.time ∧ tk.time ≤ to_time)
        if filtered = [] then
          { st with progress := st.progress.update dl.expected_hours 0 none }
        else
          { st with
            tick_buffer := st.tick_buffer ++ filtered
            progress := st.progress.update dl.expected_hours filtered.length none }
    | none => { st with progress := st.progress.update dl.expected_hours 0 none }
  let fs := flush_step batch_size insertCount st1.tick_buffer st1.ticks_inserted
  { st1 with
    tick_buffer := fs.1
    ticks_inserted := fs.2
    hours_processed := st1.hours_processed + dl.expected_hours }

/-- How many completed downloads the loop processes: all of them, unless the
shutdown flag is raised before iteration `k`, in which case the `break` at
lines 362-364 stops the loop after `k` results. -/
def shutdown_limit (shutdownAt : Option Nat) (len : Nat) : Nat :=
  match shutdownAt with
  | none => len
  | some k => min k len

/-- The orchestrator's initial state for a window: empty buffer, zero stats,
and a progress reporter whose denominator is the plan's total expected
hours (line 339-340). -/
def init_state (from_time to_time : Nat) : RunState :=
  { tick_buffer := []
    ticks_inserted := 0
    hours_processed := 0
    progress := ⟨((plan_ms from_time to_time).map (fun u => u.expected_hours)).sum, 0, 0, []⟩ }

/-- The completion loop folded over the results it processes before the
shutdown check stops it. -/
def run_loop (decompress : List Nat → Option (List Nat))
    (insertCount : List Tick → Nat) (symbol : List Char)
    (from_time to_time batch_size : Nat) (shutdownAt : Option Nat)
    (results : List (FetchUnit × Option (List Nat))) : RunState :=
  (results.take (shutdown_limit shutdownAt results.length)).foldl
    (process_result decompress insertCount symbol from_time to_time batch_size)
    (init_state from_time to_time)

/-- The tail of `catchup_gap` after planning: process the completed downloads, then the
final unconditional flush (lines 406-409) — skipped when the shutdown flag
is set or the buffer is empty — then the cascade-refresh trigger (lines
411-412), invoked only when not shut down and something was inserted.
Returns the final state, whether the refresh was invoked, and the terminal
report. -/
def catchup_gap (decompress : List Nat → Option (List Nat))
    (insertCount : List Tick → Nat) (symbol : List Char)
    (from_time to_time batch_size : Nat) (shutdownAt : Option Nat)
    (results : List (FetchUnit × Option (List Nat))) : RunState × Bool × Report :=
  let shutdown := shutdownAt.isSome
  let loopSt := run_loop decompress insertCount symbol from_time to_time batch_size
    shutdownAt results
  let finalSt :=
    if loopSt.tick_buffer ≠ [] ∧ shutdown = false then
      { loopSt with
        ticks_inserted :=
          loopSt.ticks_inserted + insert_batch insertCount loopSt.tick_buffer }
    else loopSt
  let refreshInvoked : Bool :=
    if shutdown = false ∧ 0 < finalSt.ticks_inserted then true else false
  (finalSt, refreshInvoked, final_report finalSt.progress finalSt.ticks_inserted)

/-- The exit status chosen at line 531:
`sys.exit(0 if stats['ticks_inserted'] > 0 else 1)`. -/
def main_exit (ticks_inserted : Nat) : Nat :=
  if 0 < ticks_inserted then 0 else 1

/-- The number of decoded ticks of one completed download that survive the
closed-window time filter — the amount `progress.update` is given. -/
def filtered_len (decompress : List Nat → Option (List Nat)) (symbol : List Char)
    (from_time to_time : Nat) (r : FetchUnit × Option (List Nat)) : Nat :=
  match r.2 with
  | some bytes =>
    if bytes = [] then 0
    else
      let base := if r.1.daily then replace_hour0 r.1.date else r.1.date
      ((parse_bi5_data decompress bytes symbol base).filter
        (fun tk : Tick => from_time ≤ tk.time ∧ tk.time ≤ to_time)).length
  | none => 0

/-- A sample tick used by concrete witnesses. -/
def someTick : Tick :=
  ⟨0, "EURUSD".toList, 1, 1, 0, 0, "dukascopy".toList⟩

/-! ## Basic facts about the time constants and the planning loop -/

theorem msPerSec_eq : msPerSec = 1000 := rfl

theorem msPerHour_eq : msPerHour = 3600000 := rfl

theorem msPerDay_eq : msPerDay = 86400000 := rfl

theorem plan_loop_succ_stable (toT : Nat) :
    ∀ fuel current, toT < current + fuel * msPerHour →
      plan_loop toT fuel current = plan_loop toT (fuel + 1) current := by
  intro fuel
  induction fuel with
  | zero =>
    intro current h
    simp only [Nat.zero_mul, Nat.add_zero] at h
    simp only [plan_loop]
    rw [if_neg (by omega)]
  | succ fuel ih =>
    intro current h
    show plan_loop toT (fuel + 1) current = plan_loop toT (fuel + 1 + 1) current
    simp only [plan_loop]
    by_cases hle : current ≤ toT
    · rw [if_pos hle, if_pos hle]
      by_cases hday : current = current - current % msPerDay ∧
          current - current % msPerDay + msPerDay - msPerSec ≤ toT
      · rw [if_pos hday, if_pos hday]
        congr 1
        apply ih
        have h0 : current % msPerDay = 0 := by
          have := Nat.mod_le current msPerDay
          omega
        simp only [msPerHour_eq, msPerDay_eq] at *
        omega
      · rw [if_neg hday, if_neg hday]
        congr 1
        apply ih
        simp only [msPerHour_eq] at *
        omega
    · rw [if_neg hle, if_neg hle]

theorem plan_loop_stable (toT fuel fuel' current : Nat)
    (h : toT < current + fuel * msPerHour) (hle : fuel ≤ fuel') :
    plan_loop toT fuel current = plan_loop toT fuel' current := by
  induction fuel', hle using Nat.le_induction with
  | base => rfl
  | succ fuel' hle ih =>
    rw [ih]
    apply plan_loop_succ_stable
    have : fuel * msPerHour ≤ fuel' * msPerHour := Nat.mul_le_mul_right _ hle
    omega

theorem plan_from_unfold (current toT : Nat) :
    plan_from current toT =
      if current ≤ toT then
        if current = current - current % msPerDay ∧
            current - current % msPerDay + msPerDay - msPerSec ≤ toT then
          ⟨current, none, true, 24⟩ ::
            plan_from (current - current % msPerDay + msPerDay) toT
        else
          ⟨current, some (current % msPerDay / msPerHour), false, 1⟩ ::
            plan_from (current + msPerHour) toT
      else [] := by
  have stab : ∀ c', msPerHour ≤ c' →
      plan_loop toT (toT / msPerHour + 1) c' = plan_from c' toT := by
    intro c' hc
    apply plan_loop_stable
    · simp only [msPerHour_eq] at *
      omega
    · omega
  show plan_loop toT (toT / msPerHour + 2) current = _
  rw [show toT / msPerHour + 2 = (toT / msPerHour + 1) + 1 by omega]
  rw [plan_loop.eq_2]
  rw [stab (current - current % msPerDay + msPerDay)
        (by simp only [msPerHour_eq, msPerDay_eq]; omega),
      stab (current + msPerHour) (by simp only [msPerHour_eq]; omega)]

theorem spec_walk_succ_stable (off toT : Nat) :
    ∀ fuel cursor, toT < cursor + fuel * msPerHour →
      spec_walk off toT fuel cursor = spec_walk off toT (fuel + 1) cursor := by
  intro fuel
  induction fuel with
  | zero =>
    intro cursor h
    simp only [Nat.zero_mul, Nat.add_zero] at h
    simp only [spec_walk]
    rw [if_neg (by omega)]
  | succ fuel ih =>
    intro cursor h
    show spec_walk off toT (fuel + 1) cursor = spec_walk off toT (fuel + 1 + 1) cursor
    simp only [spec_walk]
    by_cases hle : cursor ≤ toT
    · rw [if_pos hle, if_pos hle]
      by_cases hday : cursor = cursor / msPerDay * msPerDay ∧
          cursor / msPerDay * msPerDay + off ≤ toT
      · rw [if_pos hday, if_pos hday]
        congr 1
        apply ih
        simp only [msPerHour_eq, msPerDay_eq] at *
        omega
      · rw [if_neg hday, if_neg hday]
        congr 1
        apply ih
        simp only [msPerHour_eq] at *
        omega
    · rw [if_neg hle, if_neg hle]

theorem spec_walk_stable (off toT fuel fuel' cursor : Nat)
    (h : toT < cursor + fuel * msPerHour) (hle : fuel ≤ fuel') :
    spec_walk off toT fuel cursor = spec_walk off toT fuel' cursor := by
  induction fuel', hle using Nat.le_induction with
  | base => rfl
  | succ fuel' hle ih =>
    rw [ih]
    apply spec_walk_succ_stable
    have : fuel * msPerHour ≤ fuel' * msPerHour := Nat.mul_le_mul_right _ hle
    omega

theorem spec_from_unfold (off cursor toT : Nat) :
    spec_from off cursor toT =
      if cursor ≤ toT then
        if cursor = cursor / msPerDay * msPerDay ∧
            cursor / msPerDay * msPerDay + off ≤ toT then
          ⟨cursor, true, 24⟩ :: spec_from off (cursor + msPerDay) toT
        else
          ⟨cursor, false, 1⟩ :: spec_from off (cursor + msPerHour) toT
      else [] := by
  have stab : ∀ c', msPerHour ≤ c' →
      spec_walk off toT (toT / msPerHour + 1) c' = spec_from off c' toT := by
    intro c' hc
    apply spec_walk_stable
    · simp only [msPerHour_eq] at *
      omega
    · omega
  show spec_walk off toT (toT / msPerHour + 2) cursor = _
  rw [show toT / msPerHour + 2 = (toT / msPerHour + 1) + 1 by omega]
  rw [spec_walk.eq_2]
  rw [stab (cursor + msPerDay) (by simp only [msPerHour_eq, msPerDay_eq]; omega),
      stab (cursor + msPerHour) (by simp only [msPerHour_eq]; omega)]

theorem trunc_hour_eq_div_mul (x : Nat) :
    x - x % msPerHour = x / msPerHour * msPerHour := by
  simp only [msPerHour_eq]
  omega

theorem plan_spec_agree_aux (toT : Nat) :
    ∀ n current, toT + 1 - current ≤ n →
      (plan_from current toT).map toSpec =
        spec_from (23 * msPerHour + 59 * 60000 + 59 * msPerSec) current toT := by
  intro n
  induction n with
  | zero =>
    intro c h
    rw [plan_from_unfold, spec_from_unfold, if_neg (by omega), if_neg (by omega)]
    simp
  | succ n ih =>
    intro c h
    rw [plan_from_unfold, spec_from_unfold]
    by_cases hle : c ≤ toT
    · rw [if_pos hle, if_pos hle]
      have hds : c - c % msPerDay = c / msPerDay * msPerDay := by
        simp only [msPerDay_eq]
        omega
      have hoffeq : ∀ x : Nat,
          x + msPerDay - msPerSec = x + (23 * msPerHour + 59 * 60000 + 59 * msPerSec) := by
        intro x
        simp only [msPerDay_eq, msPerSec_eq, msPerHour_eq]
        omega
      by_cases hday : c = c - c % msPerDay ∧ c - c % msPerDay + msPerDay - msPerSec ≤ toT
      · have hday' : c = c / msPerDay * msPerDay ∧
            c / msPerDay * msPerDay + (23 * msPerHour + 59 * 60000 + 59 * msPerSec) ≤ toT := by
          refine ⟨by rw [← hds]; exact hday.1, ?_⟩
          rw [← hds, ← hoffeq]
          exact hday.2
        rw [if_pos hday, if_pos hday']
        simp only [List.map_cons]
        have hcur : c - c % msPerDay + msPerDay = c + msPerDay := by
          rw [← hday.1]
        rw [hcur]
        have hrec := ih (c + msPerDay) (by simp only [msPerDay_eq] at *; omega)
        rw [hrec]
        rfl
      · have hday' : ¬(c = c / msPerDay * msPerDay ∧
            c / msPerDay * msPerDay + (23 * msPerHour + 59 * 60000 + 59 * msPerSec) ≤ toT) := by
          intro hcon
          exact hday ⟨by rw [hds]; exact hcon.1, by rw [hds, hoffeq]; exact hcon.2⟩
        rw [if_neg hday, if_neg hday']
        simp only [List.map_cons]
        have hrec := ih (c + msPerHour) (by simp only [msPerHour_eq] at *; omega)
        rw [hrec]
        rfl
    · rw [if_neg hle, if_neg hle]
      simp

/-- Claim C1 (counterexample): for the valid window from 0 to 23:59:59.000 of
the epoch day, the code's planner emits one Daily unit — the calendar day's
end computed as `day_start + 1 day - 1 second` is within `window.to` — while
the walk described by the claim, whose day-eligibility test uses the day's
end at 23:59:59.999, would emit 24 Hourly units.  The claim's description of
the planner is therefore false at this window. -/
theorem c1_counterexample :
    0 < 86399000 ∧ (plan_ms 0 86399000).map toSpec ≠ plan_spec999 0 86399000 := by
  constructor
  · decide
  · decide

/-- Claim C1 (amended): for every window, the planner walks a cursor starting
at `window.from` truncated to the hour and, at each step, emits a Daily unit
(expectedHourCount 24) and advances the cursor by exactly one day when the
cursor equals the start of its calendar day and that day's end at 23:59:59.000
(one second before the next midnight) is still within `window.to`; otherwise
it emits an Hourly unit (expectedHourCount 1) and advances by one hour; the
loop terminates when the cursor exceeds `window.to`. -/
theorem c1_amended_planner_walk (from_time to_time : Nat) :
    (plan_ms from_time to_time).map toSpec = plan_spec_sec from_time to_time := by
  show (plan_from (from_time - from_time % msPerHour) to_time).map toSpec =
    spec_from (23 * msPerHour + 59 * 60000 + 59 * msPerSec)
      (from_time / msPerHour * msPerHour) to_time
  rw [← trunc_hour_eq_div_mul]
  exact plan_spec_agree_aux to_time (to_time + 1) _ (by omega)

theorem coveredHours_cons (u : FetchUnit) (us : List FetchUnit) :
    coveredHours (u :: us) = unitHours u ++ coveredHours us := by
  simp [coveredHours]

theorem progression_split (f a b s : Nat) :
    (List.range (a + b)).map (fun i => f + i * s) =
      (List.range a).map (fun i => f + i * s) ++
        (List.range b).map (fun i => f + a * s + i * s) := by
  rw [List.range_add, List.map_append, List.map_map]
  congr 1
  apply List.map_congr_left
  intro i _
  simp only [Function.comp, Nat.add_mul]
  omega

theorem covered_plan_from (toT : Nat) :
    ∀ n c, toT + 1 - c ≤ n → c % msPerHour = 0 → c ≤ toT →
      coveredHours (plan_from c toT) =
        (List.range ((toT - c) / msPerHour + 1)).map (fun i => c + i * msPerHour) := by
  intro n
  induction n with
  | zero =>
    intro c h _ hle
    omega
  | succ n ih =>
    intro c h hmod hle
    rw [plan_from_unfold, if_pos hle]
    by_cases hday : c = c - c % msPerDay ∧ c - c % msPerDay + msPerDay - msPerSec ≤ toT
    · rw [if_pos hday]
      have h0 : c % msPerDay = 0 := by
        have := Nat.mod_le c msPerDay
        omega
      rw [coveredHours_cons]
      have hu : unitHours ⟨c, none, true, 24⟩ =
          (List.range 24).map (fun k => c + k * msPerHour) := by
        simp [unitHours]
      rw [hu]
      have hc' : c - c % msPerDay + msPerDay = c + msPerDay := by omega
      rw [hc']
      by_cases hnext : c + msPerDay ≤ toT
      · rw [ih (c + msPerDay) (by simp only [msPerDay_eq] at *; omega)
            (by simp only [msPerDay_eq, msPerHour_eq] at *; omega) hnext]
        have hcount : (toT - c) / msPerHour + 1 =
            24 + ((toT - (c + msPerDay)) / msPerHour + 1) := by
          simp only [msPerHour_eq, msPerDay_eq] at *
          omega
        conv_rhs => rw [hcount, progression_split]
        congr 1
      · rw [plan_from_unfold, if_neg (by omega)]
        have hcount : (toT - c) / msPerHour + 1 = 24 := by
          simp only [msPerHour_eq, msPerDay_eq, msPerSec_eq] at *
          omega
        rw [hcount]
        simp [coveredHours]
    · rw [if_neg hday, coveredHours_cons]
      have hu : unitHours ⟨c, some (c % msPerDay / msPerHour), false, 1⟩ = [c] := by
        simp [unitHours]
      rw [hu]
      by_cases hnext : c + msPerHour ≤ toT
      · rw [ih (c + msPerHour) (by simp only [msPerHour_eq] at *; omega)
            (by simp only [msPerHour_eq] at *; omega) hnext]
        have hcount : (toT - c) / msPerHour + 1 =
            1 + ((toT - (c + msPerHour)) / msPerHour + 1) := by
          simp only [msPerHour_eq] at *
          omega
        conv_rhs => rw [hcount, progression_split]
        congr 1
      · rw [plan_from_unfold, if_neg (by omega)]
        have hcount : (toT - c) / msPerHour + 1 = 1 := by
          simp only [msPerHour_eq] at *
          omega
        rw [hcount]
        simp [coveredHours, List.range_succ]

theorem dailyChain_succ (start k : Nat) :
    dailyChain start (k + 1) =
      ⟨start, none, true, 24⟩ :: dailyChain (start + msPerDay) k := by
  unfold dailyChain
  rw [List.range_succ_eq_map, List.map_cons, List.map_map]
  congr 1
  apply List.map_congr_left
  intro i _
  simp [Function.comp, FetchUnit.mk.injEq, Nat.succ_mul]
  omega

theorem c2_aux : ∀ k f, f % msPerDay = 0 →
    plan_from f (f + (k + 1) * msPerDay) =
      dailyChain f (k + 1) ++ [⟨f + (k + 1) * msPerDay, some 0, false, 1⟩] := by
  intro k
  induction k with
  | zero =>
    intro f hf
    rw [plan_from_unfold]
    rw [if_pos (by omega), if_pos ⟨by omega, by simp only [msPerDay_eq, msPerSec_eq] at *; omega⟩]
    rw [show f - f % msPerDay + msPerDay = f + (0 + 1) * msPerDay by omega]
    rw [plan_from_unfold]
    rw [if_pos (by omega)]
    rw [if_neg (by
      intro hcon
      have := hcon.2
      simp only [msPerDay_eq, msPerSec_eq] at *
      omega)]
    rw [plan_from_unfold]
    rw [if_neg (by simp only [msPerDay_eq, msPerHour_eq] at *; omega)]
    rw [show (f + (0 + 1) * msPerDay) % msPerDay / msPerHour = 0 by
      simp only [msPerDay_eq, msPerHour_eq] at *; omega]
    simp [dailyChain, List.range_succ]
  | succ k ih =>
    intro f hf
    rw [plan_from_unfold]
    rw [if_pos (by omega), if_pos ⟨by omega, by simp only [msPerDay_eq, msPerSec_eq] at *; omega⟩]
    rw [show f - f % msPerDay + msPerDay = f + msPerDay by omega]
    have hre : f + msPerDay + (k + 1) * msPerDay = f + (k + 1 + 1) * msPerDay := by
      simp only [Nat.succ_mul]
      omega
    have hrec := ih (f + msPerDay) (by simp only [msPerDay_eq] at *; omega)
    rw [hre] at hrec
    rw [hrec]
    conv_rhs => rw [dailyChain_succ]
    simp

/-- Claim C2 (counterexample): for the window from midnight 0 to the next
midnight 86400000 — both on exact day boundaries, spanning one full day with
no positive partial remainder — the plan the claim predicts is a single
Daily unit, but the code's planner also emits a trailing Hourly unit for the
hour beginning at `window.to`, because the cursor comparison `current <= to`
is inclusive. -/
theorem c2_counterexample :
    (0 % msPerDay = 0 ∧ 86400000 % msPerDay = 0 ∧ 0 + msPerDay ≤ 86400000) ∧
      (plan_ms 0 86400000).map toSpec ≠ claimPlanC2 0 86400000 := by
  refine ⟨⟨by decide, by decide, by decide⟩, by decide⟩

/-- Claim C2 (amended): for every window whose `from` and `to` both fall on
exact day boundaries and that spans at least one full day, the planner emits
exactly one Daily unit per full day plus one trailing Hourly unit for the
hour beginning at `window.to` (the closed window contains the instant
`window.to`, whose ticks live in that hour's archive), and the union of the
hours covered by the emitted units equals the requested range's hours plus
that one extra trailing hour, with no gaps and no overlaps. -/
theorem c2_amended_day_aligned (f t : Nat) (hf : f % msPerDay = 0)
    (ht : t % msPerDay = 0) (h : f + msPerDay ≤ t) :
    plan_ms f t = dailyChain f ((t - f) / msPerDay) ++ [⟨t, some 0, false, 1⟩] ∧
    coveredHours (plan_ms f t) =
      (List.range ((t - f) / msPerHour + 1)).map (fun i => f + i * msPerHour) ∧
    (coveredHours (plan_ms f t)).Nodup := by
  have hfh : f % msPerHour = 0 := by
    simp only [msPerDay_eq, msPerHour_eq] at *
    omega
  have hplan : plan_ms f t = plan_from f t := by
    show plan_from (f - f % msPerHour) t = plan_from f t
    rw [show f - f % msPerHour = f by omega]
  have hcov : coveredHours (plan_ms f t) =
      (List.range ((t - f) / msPerHour + 1)).map (fun i => f + i * msPerHour) := by
    rw [hplan]
    exact covered_plan_from t (t + 1) f (by omega) hfh (by omega)
  refine ⟨?_, hcov, ?_⟩
  · obtain ⟨k, hk⟩ : ∃ k, t = f + (k + 1) * msPerDay :=
      ⟨(t - f) / msPerDay - 1, by simp only [msPerDay_eq] at *; omega⟩
    subst hk
    have hcnt : (f + (k + 1) * msPerDay - f) / msPerDay = k + 1 := by
      simp only [msPerDay_eq]
      omega
    rw [hcnt, hplan]
    exact c2_aux k f hf
  · rw [hcov]
    have hinj : Function.Injective (fun i : Nat => f + i * msPerHour) := by
      intro a b hab
      simp only [msPerHour_eq] at hab
      omega
    exact (List.nodup_range _).map hinj

/-- Witness for the amended claim C2 at the concrete one-day window
[0, 86400000]. -/
theorem c2_amended_day_aligned_witness :
    (0 % msPerDay = 0 ∧ 86400000 % msPerDay = 0 ∧ 0 + msPerDay ≤ 86400000) ∧
      plan_ms 0 86400000 =
        dailyChain 0 ((86400000 - 0) / msPerDay) ++ [⟨86400000, some 0, false, 1⟩] :=
  ⟨⟨by decide, by decide, by decide⟩,
    (c2_amended_day_aligned 0 86400000 (by decide) (by decide) (by decide)).1⟩

theorem hour_units_split (c a b : Nat) :
    (List.range (a + b)).map
        (fun i => (⟨c + i * msPerHour,
          some ((c + i * msPerHour) % msPerDay / msPerHour), false, 1⟩ : FetchUnit)) =
      (List.range a).map
        (fun i => ⟨c + i * msPerHour,
          some ((c + i * msPerHour) % msPerDay / msPerHour), false, 1⟩) ++
      (List.range b).map
        (fun i => ⟨c + a * msPerHour + i * msPerHour,
          some ((c + a * msPerHour + i * msPerHour) % msPerDay / msPerHour), false, 1⟩) := by
  rw [List.range_add, List.map_append, List.map_map]
  congr 1
  apply List.map_congr_left
  intro i _
  have harg : c + (a + i) * msPerHour = c + a * msPerHour + i * msPerHour := by
    simp only [Nat.add_mul]
    omega
  simp only [Function.comp]
  rw [harg]

theorem c3_aux (toT : Nat) :
    ∀ n c, toT + 1 - c ≤ n → c % msPerHour = 0 → c ≤ toT →
      c / msPerDay = toT / msPerDay →
      (c % msPerDay = 0 → ¬(c + msPerDay - msPerSec ≤ toT)) →
      plan_from c toT =
        (List.range ((toT - c) / msPerHour + 1)).map
          (fun i => ⟨c + i * msPerHour,
            some ((c + i * msPerHour) % msPerDay / msPerHour), false, 1⟩) := by
  intro n
  induction n with
  | zero =>
    intro c h _ hle _ _
    omega
  | succ n ih =>
    intro c h hmod hle hsame hguard
    rw [plan_from_unfold, if_pos hle]
    rw [if_neg (by
      intro hcon
      have h0 : c % msPerDay = 0 := by
        have := Nat.mod_le c msPerDay
        omega
      apply hguard h0
      have := hcon.2
      omega)]
    by_cases hnext : c + msPerHour ≤ toT
    · have hsame' : (c + msPerHour) / msPerDay = toT / msPerDay := by
        simp only [msPerHour_eq, msPerDay_eq] at *
        omega
      have hguard' : (c + msPerHour) % msPerDay = 0 →
          ¬(c + msPerHour + msPerDay - msPerSec ≤ toT) := by
        intro hz
        exfalso
        simp only [msPerHour_eq, msPerDay_eq] at *
        omega
      rw [ih (c + msPerHour) (by simp only [msPerHour_eq] at *; omega)
          (by simp only [msPerHour_eq] at *; omega) hnext hsame' hguard']
      have hcount : (toT - c) / msPerHour + 1 =
          ((toT - (c + msPerHour)) / msPerHour + 1) + 1 := by
        simp only [msPerHour_eq] at *
        omega
      conv_rhs => rw [hcount, List.range_succ_eq_map, List.map_cons, List.map_map]
      congr 1
      apply List.map_congr_left
      intro a _
      have harg : c + Nat.succ a * msPerHour = c + msPerHour + a * msPerHour := by
        simp only [Nat.succ_mul]
        omega
      simp only [Function.comp]
      rw [harg]
    · rw [plan_from_unfold, if_neg (by omega)]
      have hcount : (toT - c) / msPerHour + 1 = 1 := by
        simp only [msPerHour_eq] at *
        omega
      rw [hcount]
      simp [List.range_succ]

/-- Claim C3 (counterexample): the spec's own scenario window, 2024-01-15
10:30:00Z to 2024-01-15 11:00:00Z (in epoch milliseconds), lies in a single
calendar day, yet the plan has two Hourly units (hours 10 and 11), not
`ceil(0.5h) = 1` unit and not only the hour-10 unit: the inclusive cursor
comparison emits a unit for the hour beginning at `window.to` as well. -/
theorem c3_counterexample :
    1705314600000 / msPerDay = 1705316400000 / msPerDay ∧
    (plan_ms 1705314600000 1705316400000).length ≠
      (1705316400000 - 1705314600000 + msPerHour - 1) / msPerHour ∧
    plan_ms 1705314600000 1705316400000 ≠ [⟨1705312800000, some 10, false, 1⟩] := by
  refine ⟨by decide, by decide, by decide⟩

/-- Claim C3 (amended): for every window lying within a single calendar day
whose truncated cursor never satisfies the daily-eligibility test, the
planner emits only Hourly units, one per hour-start from `window.from`
truncated to the hour through the last hour-start not exceeding `window.to`
— that is, `floor((to - trunc_hour(from)) / 1h) + 1` units rather than
`ceil(duration)`; in particular, for the window 2024-01-15T10:30:00Z to
2024-01-15T11:00:00Z the plan contains exactly two Hourly units, for hours
10 and 11. -/
theorem c3_amended_single_day (f t : Nat) (h1 : f ≤ t)
    (h2 : f / msPerDay = t / msPerDay)
    (h3 : ¬((f - f % msPerHour) % msPerDay = 0 ∧
        f - f % msPerHour + msPerDay - msPerSec ≤ t)) :
    plan_ms f t =
      (List.range ((t - (f - f % msPerHour)) / msPerHour + 1)).map
        (fun i => ⟨f - f % msPerHour + i * msPerHour,
          some ((f - f % msPerHour + i * msPerHour) % msPerDay / msPerHour),
          false, 1⟩) ∧
    plan_ms 1705314600000 1705316400000 =
      [⟨1705312800000, some 10, false, 1⟩, ⟨1705316400000, some 11, false, 1⟩] := by
  constructor
  · exact c3_aux t (t + 1) (f - f % msPerHour) (by omega)
      (by simp only [msPerHour_eq]; omega) (by omega)
      (by simp only [msPerHour_eq, msPerDay_eq] at *; omega)
      (fun hz hcon => h3 ⟨hz, hcon⟩)
  · decide

/-- Witness for the amended claim C3 at the spec's scenario-B window. -/
theorem c3_amended_single_day_witness :
    plan_ms 1705314600000 1705316400000 =
      [⟨1705312800000, some 10, false, 1⟩, ⟨1705316400000, some 11, false, 1⟩] :=
  (c3_amended_single_day 1705314600000 1705316400000 (by decide) (by decide)
    (by decide)).2

theorem exists_chunk (p : List Nat) (h : 20 ≤ p.length) :
    ∃ b0 b1 b2 b3 b4 b5 b6 b7 b8 b9 b10 b11 b12 b13 b14 b15 b16 b17 b18 b19 rest,
      p = b0 :: b1 :: b2 :: b3 :: b4 :: b5 :: b6 :: b7 :: b8 :: b9 :: b10 :: b11 :: b12 :: b13 :: b14 :: b15 :: b16 :: b17 :: b18 :: b19 :: rest := by
  rcases p with _ | ⟨b0, p⟩
  · simp at h
  rcases p with _ | ⟨b1, p⟩
  · simp at h
  rcases p with _ | ⟨b2, p⟩
  · simp at h
  rcases p with _ | ⟨b3, p⟩
  · simp at h
  rcases p with _ | ⟨b4, p⟩
  · simp at h
  rcases p with _ | ⟨b5, p⟩
  · simp at h
  rcases p with _ | ⟨b6, p⟩
  · simp at h
  rcases p with _ | ⟨b7, p⟩
  · simp at h
  rcases p with _ | ⟨b8, p⟩
  · simp at h
  rcases p with _ | ⟨b9, p⟩
  · simp at h
  rcases p with _ | ⟨b10, p⟩
  · simp at h
  rcases p with _ | ⟨b11, p⟩
  · simp at h
  rcases p with _ | ⟨b12, p⟩
  · simp at h
  rcases p with _ | ⟨b13, p⟩
  · simp at h
  rcases p with _ | ⟨b14, p⟩
  · simp at h
  rcases p with _ | ⟨b15, p⟩
  · simp at h
  rcases p with _ | ⟨b16, p⟩
  · simp at h
  rcases p with _ | ⟨b17, p⟩
  · simp at h
  rcases p with _ | ⟨b18, p⟩
  · simp at h
  rcases p with _ | ⟨b19, p⟩
  · simp at h
  exact ⟨b0, b1, b2, b3, b4, b5, b6, b7, b8, b9, b10, b11, b12, b13, b14, b15, b16, b17, b18, b19, p, rfl⟩

theorem parse_records_short (s : List Char) (b : Nat) :
    ∀ p : List Nat, p.length < 20 → parse_records s b p = some [] := by
  intro p h
  rw [parse_records.eq_def]
  split
  · exfalso
    simp only [List.length_cons] at h
    omega
  · rfl

theorem parse_records_append (s : List Char) (b : Nat) (extra : List Nat)
    (hex : extra.length < 20) :
    ∀ p : List Nat, p.length % 20 = 0 →
      parse_records s b (p ++ extra) = parse_records s b p := by
  suffices H : ∀ n (p : List Nat), p.length ≤ n → p.length % 20 = 0 →
      parse_records s b (p ++ extra) = parse_records s b p by
    intro p hp
    exact H p.length p le_rfl hp
  intro n
  induction n with
  | zero =>
    intro p hlen hmod
    have hnil : p = [] := List.eq_nil_of_length_eq_zero (by omega)
    subst hnil
    rw [List.nil_append, parse_records_short s b extra hex,
      parse_records_short s b [] (by simp)]
  | succ n ih =>
    intro p hlen hmod
    by_cases hbig : 20 ≤ p.length
    · obtain ⟨b0, b1, b2, b3, b4, b5, b6, b7, b8, b9, b10, b11, b12, b13, b14, b15, b16, b17, b18, b19, rest, rfl⟩ := exists_chunk p hbig
      simp only [List.cons_append]
      simp only [parse_records]
      simp only [List.length_cons] at hlen hmod
      cases hmk : make_tick s b [b0, b1, b2, b3, b4, b5, b6, b7, b8, b9, b10, b11, b12, b13, b14, b15, b16, b17, b18, b19] with
      | none => rfl
      | some t =>
        rw [ih rest (by omega) (by omega)]
    · have hnil : p = [] := List.eq_nil_of_length_eq_zero (by omega)
      subst hnil
      rw [List.nil_append, parse_records_short s b extra hex,
        parse_records_short s b [] (by simp)]

/-- Claim C8 (confirmed): the decoder is total at its boundary — empty
bytes yield an empty sequence (before decompression), non-decompressible
input yields an empty sequence (the caught exception path), a decompressed
payload shorter than one full 20-byte record yields an empty sequence, and
trailing bytes shorter than one full record are discarded; the embedding is
a total function, so no exception reaches the caller. -/
theorem c8_decoder_total :
    (∀ decompress symbol base,
        parse_bi5_data decompress [] symbol base = []) ∧
    (∀ decompress symbol base data, decompress data = none →
        parse_bi5_data decompress data symbol base = []) ∧
    (∀ decompress symbol base data payload, decompress data = some payload →
        payload.length < 20 → parse_bi5_data decompress data symbol base = []) ∧
    (∀ symbol base payload extra, payload.length % 20 = 0 → extra.length < 20 →
        parse_records symbol base (payload ++ extra) =
          parse_records symbol base payload) := by
  refine ⟨?_, ?_, ?_, ?_⟩
  · intro dc s b
    simp [parse_bi5_data]
  · intro dc s b data hnone
    by_cases hd : data = []
    · simp [parse_bi5_data, hd]
    · simp [parse_bi5_data, hd, hnone]
  · intro dc s b data payload hsome hlen
    by_cases hd : data = []
    · simp [parse_bi5_data, hd]
    · simp [parse_bi5_data, hd, hsome, parse_records_short s b payload hlen]
  · intro s b payload extra hmod hex
    exact parse_records_append s b extra hex payload hmod

/-- Witness for claim C8 on concrete inputs. -/
theorem c8_decoder_total_witness :
    parse_bi5_data (fun _ => none) [] [] 0 = [] ∧
    parse_bi5_data (fun _ => none) [1] [] 0 = [] ∧
    parse_bi5_data (fun _ => some [5, 6, 7]) [1] [] 0 = [] ∧
    parse_records [] 0 ([] ++ [1, 2, 3]) = parse_records [] 0 [] :=
  ⟨c8_decoder_total.1 _ _ _,
   c8_decoder_total.2.1 _ _ _ [1] rfl,
   c8_decoder_total.2.2.1 _ _ _ [1] [5, 6, 7] rfl (by decide),
   c8_decoder_total.2.2.2 _ _ [] [1, 2, 3] (by decide) (by decide)⟩

/-- Claim C6 (counterexample): the record whose askVolume float32 bit
pattern is 0x35E00000 = 903872512 decodes to the volume 7/2^22, so
`round(volumeFloat * 1_000_000)` is 2 (the product is about 1.669), but the
decoder produces askSize 1: line 229 computes `int(ask_vol * 1000000)`,
which truncates toward zero rather than rounding to the nearest integer. -/
theorem c6_counterexample :
    f32_to_rat 903872512 = some ((7 : ℚ) / 4194304) ∧
    (parse_bi5_data
        (fun _ => some [0, 0, 0, 0, 0, 0, 0, 0, 0, 0, 0, 0, 53, 224, 0, 0, 0, 0, 0, 0])
        [1] "EURUSD".toList 0).map (fun t => t.ask_size) = [(1 : ℤ)] ∧
    round (((7 : ℚ) / 4194304) * 1000000) = (2 : ℤ) := by
  refine ⟨?_, ?_, ?_⟩
  · simp [f32_to_rat]
    norm_num
  · norm_num [parse_bi5_data, parse_records, make_tick, f32_to_rat, u32be, py_int,
      jpyChars]
  · rw [round_eq, show (7 : ℚ) / 4194304 * 1000000 + 1 / 2 = 9097152 / 4194304 by
      norm_num]
    norm_num [Int.floor_eq_iff]

/-- Claim C6 (amended): for every decoded record, the decoder reconstructs
askSize and bidSize as `int(volumeFloat * 1_000_000)` — Python's `int()`,
which truncates toward zero — applied to the decoded 32-bit float volume
multiplied by one million, not as the nearest integer. -/
theorem c6_amended_sizes (symbol : List Char) (base : Nat) (chunk : List Nat)
    (t : Tick) (av bv : ℚ)
    (ha : f32_to_rat (u32be chunk 12) = some av)
    (hb : f32_to_rat (u32be chunk 16) = some bv)
    (h : make_tick symbol base chunk = some t) :
    t.ask_size = py_int (av * 1000000) ∧ t.bid_size = py_int (bv * 1000000) := by
  unfold make_tick at h
  rw [ha, hb] at h
  simp only [Option.some.injEq] at h
  subst h
  exact ⟨rfl, rfl⟩

/-- Witness for the amended claim C6 at an all-zero record. -/
theorem c6_amended_sizes_witness :
    (⟨0, "EURUSD".toList, 0, 0, 0, 0, "dukascopy".toList⟩ : Tick).ask_size =
        py_int ((0 : ℚ) * 1000000) ∧
    (⟨0, "EURUSD".toList, 0, 0, 0, 0, "dukascopy".toList⟩ : Tick).bid_size =
        py_int ((0 : ℚ) * 1000000) :=
  c6_amended_sizes "EURUSD".toList 0 (List.replicate 20 0) _ 0 0
    (by norm_num [f32_to_rat, u32be, List.replicate])
    (by norm_num [f32_to_rat, u32be, List.replicate])
    (by norm_num [make_tick, f32_to_rat, u32be, py_int, jpyChars, List.replicate])

/-- Claim C7 (counterexample): for the symbol "usdjpy" — which does not
contain the substring "JPY", so the claim requires division by 100000 — a
record with askRaw 100000 decodes to the price 100, not 100000/100000 = 1:
line 214 tests `'JPY' in symbol.upper()`, so the lower-case symbol still
takes the divide-by-1000 branch. -/
theorem c7_counterexample :
    ¬("JPY".toList <:+: "usdjpy".toList) ∧
    (parse_bi5_data
        (fun _ => some [0, 0, 0, 0, 0, 1, 134, 160, 0, 0, 0, 0, 0, 0, 0, 0, 0, 0, 0, 0])
        [1] "usdjpy".toList 0).map (fun t => t.ask) = [(100 : ℚ)] ∧
    (100 : ℚ) ≠ (100000 : ℚ) / 100000 := by
  refine ⟨by decide, ?_, by norm_num⟩
  norm_num [parse_bi5_data, parse_records, make_tick, f32_to_rat, u32be, py_int,
    jpyChars]
  decide

/-- Claim C7 (amended): for every archive record and every symbol, the raw
price fields are unsigned 32-bit integers, and decoded bid and ask prices
equal the raw integer divided by 1000 when the upper-cased symbol contains
"JPY" (a case-insensitive containment test), and divided by 100000 for any
other symbol. -/
theorem c7_amended_prices (symbol : List Char) (base : Nat) (chunk : List Nat)
    (t : Tick) (hbytes : ∀ x ∈ chunk, x < 256)
    (h : make_tick symbol base chunk = some t) :
    u32be chunk 4 < 2 ^ 32 ∧ u32be chunk 8 < 2 ^ 32 ∧
    (if jpyChars <:+: symbol.map Char.toUpper then
        t.ask = (u32be chunk 4 : ℚ) / 1000 ∧ t.bid = (u32be chunk 8 : ℚ) / 1000
      else
        t.ask = (u32be chunk 4 : ℚ) / 100000 ∧
          t.bid = (u32be chunk 8 : ℚ) / 100000) := by
  have hb : ∀ i, chunk.getD i 0 < 256 := by
    intro i
    by_cases hi : i < chunk.length
    · rw [List.getD_eq_getElem chunk 0 hi]
      exact hbytes _ (List.getElem_mem hi)
    · rw [List.getD_eq_default chunk 0 (by omega)]
      norm_num
  refine ⟨?_, ?_, ?_⟩
  · have h4 := hb 4
    have h5 := hb (4 + 1)
    have h6 := hb (4 + 2)
    have h7 := hb (4 + 3)
    simp only [u32be]
    rw [show (2 : ℕ) ^ 32 = 4294967296 by norm_num]
    omega
  · have h8 := hb 8
    have h9 := hb (8 + 1)
    have h10 := hb (8 + 2)
    have h11 := hb (8 + 3)
    simp only [u32be]
    rw [show (2 : ℕ) ^ 32 = 4294967296 by norm_num]
    omega
  · unfold make_tick at h
    cases hav : f32_to_rat (u32be chunk 12) with
    | none =>
      rw [hav] at h
      simp at h
    | some av =>
      cases hbv : f32_to_rat (u32be chunk 16) with
      | none =>
        rw [hav, hbv] at h
        simp at h
      | some bv =>
        rw [hav, hbv] at h
        simp only [Option.some.injEq] at h
        subst h
        by_cases hjpy : jpyChars <:+: symbol.map Char.toUpper
        · rw [if_pos hjpy]
          constructor <;> simp [hjpy]
        · rw [if_neg hjpy]
          constructor <;> simp [hjpy]

/-- Witness for the amended claim C7 at an all-zero record with symbol
EURUSD. -/
theorem c7_amended_prices_witness :
    u32be (List.replicate 20 0) 4 < 2 ^ 32 ∧ u32be (List.replicate 20 0) 8 < 2 ^ 32 ∧
    (if jpyChars <:+: ("EURUSD".toList).map Char.toUpper then
        (⟨0, "EURUSD".toList, 0, 0, 0, 0, "dukascopy".toList⟩ : Tick).ask =
            (u32be (List.replicate 20 0) 4 : ℚ) / 1000 ∧
          (⟨0, "EURUSD".toList, 0, 0, 0, 0, "dukascopy".toList⟩ : Tick).bid =
            (u32be (List.replicate 20 0) 8 : ℚ) / 1000
      else
        (⟨0, "EURUSD".toList, 0, 0, 0, 0, "dukascopy".toList⟩ : Tick).ask =
            (u32be (List.replicate 20 0) 4 : ℚ) / 100000 ∧
          (⟨0, "EURUSD".toList, 0, 0, 0, 0, "dukascopy".toList⟩ : Tick).bid =
            (u32be (List.replicate 20 0) 8 : ℚ) / 100000) :=
  c7_amended_prices "EURUSD".toList 0 (List.replicate 20 0) _
    (by simp [List.mem_replicate])
    (by norm_num [make_tick, f32_to_rat, u32be, py_int, jpyChars, List.replicate])

/-- Claim C4 (counterexample): with batch size 1 and a buffer holding two
ticks, the buffer-check step persists exactly one batch and leaves one
record in the buffer — not fewer than batchSize records: lines 394-398 are
an `if`, not a loop, so the flush does not repeat until the buffer drops
below the threshold. -/
theorem c4_counterexample :
    1 ≤ ([someTick, someTick] : List Tick).length ∧
    ¬((flush_step 1 List.length [someTick, someTick] 0).1.length < 1) := by
  refine ⟨by decide, by decide⟩

/-- Claim C4 (amended): whenever the tick buffer's length reaches or exceeds
the configured batch size, the writer drains and persists exactly batchSize
records — the first batchSize of the buffer — once per buffer check, without
repeating; immediately after the buffer-check step the buffer holds its
previous length minus batchSize records, which is below the threshold again
exactly when fewer than 2*batchSize records had accumulated. -/
theorem c4_amended_flush_once (batch_size : Nat) (insertCount : List Tick → Nat)
    (buffer : List Tick) (inserted : Nat) (h : batch_size ≤ buffer.length) :
    flush_step batch_size insertCount buffer inserted =
      (buffer.drop batch_size,
        inserted + insert_batch insertCount (buffer.take batch_size)) ∧
    ((buffer.drop batch_size).length < batch_size ↔
      buffer.length < 2 * batch_size) := by
  refine ⟨by simp only [flush_step, if_pos h], ?_⟩
  rw [List.length_drop]
  omega

/-- Witness for the amended claim C4 at a two-tick buffer with batch size
1. -/
theorem c4_amended_flush_once_witness :
    flush_step 1 List.length [someTick, someTick] 0 =
      (([someTick, someTick] : List Tick).drop 1,
        0 + insert_batch List.length (([someTick, someTick] : List Tick).take 1)) ∧
    ((([someTick, someTick] : List Tick).drop 1).length < 1 ↔
      ([someTick, someTick] : List Tick).length < 2 * 1) :=
  c4_amended_flush_once 1 List.length [someTick, someTick] 0 (by decide)

/-- Claim C5 (confirmed): if the shutdown flag is raised mid-run while the
tick buffer is non-empty, the final unconditional flush is skipped — the
run's final state is exactly the loop state, so the trailing buffer's
contents are never persisted — the downstream cascade refresh is not
invoked, and the reported ticksInserted is the loop state's count,
reflecting only flushes completed before the shutdown was observed. -/
theorem c5_shutdown_discards (decompress : List Nat → Option (List Nat))
    (insertCount : List Tick → Nat) (symbol : List Char)
    (from_time to_time batch_size k : Nat)
    (results : List (FetchUnit × Option (List Nat)))
    (h : (run_loop decompress insertCount symbol from_time to_time batch_size
        (some k) results).tick_buffer ≠ []) :
    catchup_gap decompress insertCount symbol from_time to_time batch_size
        (some k) results =
      (run_loop decompress insertCount symbol from_time to_time batch_size
          (some k) results,
        false,
        final_report
          (run_loop decompress insertCount symbol from_time to_time batch_size
              (some k) results).progress
          (run_loop decompress insertCount symbol from_time to_time batch_size
              (some k) results).ticks_inserted) := by
  unfold catchup_gap
  simp

/-- Witness for claim C5: a one-unit run whose decoded tick reaches the
buffer, shut down after that unit — the refresh is not invoked and the
trailing buffer is non-empty yet the final state is the loop state. -/
theorem c5_shutdown_discards_witness :
    (run_loop (fun _ => some (List.replicate 20 0)) List.length "EURUSD".toList 0
        3600000 1000000 (some 1)
        [(⟨0, some 0, false, 1⟩, some [7])]).tick_buffer ≠ [] ∧
    (catchup_gap (fun _ => some (List.replicate 20 0)) List.length "EURUSD".toList 0
        3600000 1000000 (some 1) [(⟨0, some 0, false, 1⟩, some [7])]).2.1 = false := by
  have hb : (run_loop (fun _ => some (List.replicate 20 0)) List.length
      "EURUSD".toList 0 3600000 1000000 (some 1)
      [(⟨0, some 0, false, 1⟩, some [7])]).tick_buffer ≠ [] := by decide
  refine ⟨hb, ?_⟩
  rw [c5_shutdown_discards (fun _ => some (List.replicate 20 0)) List.length
    "EURUSD".toList 0 3600000 1000000 1 [(⟨0, some 0, false, 1⟩, some [7])] hb]

theorem process_result_absent (decompress : List Nat → Option (List Nat))
    (insertCount : List Tick → Nat) (symbol : List Char) (f t bs : Nat)
    (st : RunState) (r : FetchUnit × Option (List Nat))
    (habs : r.2 = none ∨ r.2 = some []) (hb : st.tick_buffer = []) :
    process_result decompress insertCount symbol f t bs st r =
      { tick_buffer := []
        ticks_inserted := st.ticks_inserted
        hours_processed := st.hours_processed + r.1.expected_hours
        progress := st.progress.update r.1.expected_hours 0 none } := by
  obtain ⟨buf, ti, hp, pg⟩ := st
  simp only at hb
  subst hb
  obtain ⟨u, data⟩ := r
  rcases habs with h | h <;>
  · simp only at h
    subst h
    simp [process_result, flush_step, insert_batch]

theorem run_loop_absent (decompress : List Nat → Option (List Nat))
    (insertCount : List Tick → Nat) (symbol : List Char) (f t bs : Nat) :
    ∀ (rs : List (FetchUnit × Option (List Nat))) (st : RunState),
      (∀ r ∈ rs, r.2 = none ∨ r.2 = some []) → st.tick_buffer = [] →
      (rs.foldl (process_result decompress insertCount symbol f t bs)
          st).tick_buffer = [] ∧
      (rs.foldl (process_result decompress insertCount symbol f t bs)
          st).ticks_inserted = st.ticks_inserted ∧
      (rs.foldl (process_result decompress insertCount symbol f t bs)
          st).progress.failed_hours = st.progress.failed_hours := by
  intro rs
  induction rs with
  | nil =>
    intro st _ hb
    exact ⟨hb, rfl, rfl⟩
  | cons r rs ih =>
    intro st habs hb
    simp only [List.foldl_cons]
    rw [process_result_absent decompress insertCount symbol f t bs st r
      (habs r (List.mem_cons_self r rs)) hb]
    have hrec := ih
      { tick_buffer := []
        ticks_inserted := st.ticks_inserted
        hours_processed := st.hours_processed + r.1.expected_hours
        progress := st.progress.update r.1.expected_hours 0 none }
      (fun x hx => habs x (List.mem_cons_of_mem r hx)) rfl
    refine ⟨hrec.1, by rw [hrec.2.1], by rw [hrec.2.2]; simp [Progress.update]⟩

/-- Claim C9 (confirmed): `main` exits with status 0 exactly when at least
one tick was inserted and with status 1 otherwise; and when every fetch
unit returns absent (or empty bytes), the final report has ticksInserted 0
with status "success" and zero failed units, and the process exit status is
1. -/
theorem c9_exit_code (decompress : List Nat → Option (List Nat))
    (insertCount : List Tick → Nat) (symbol : List Char) (f t bs : Nat)
    (shutdownAt : Option Nat) (results : List (FetchUnit × Option (List Nat)))
    (habs : ∀ r ∈ results, r.2 = none ∨ r.2 = some []) :
    (∀ n : Nat, main_exit n = 0 ↔ 0 < n) ∧
    (catchup_gap decompress insertCount symbol f t bs shutdownAt
        results).1.ticks_inserted = 0 ∧
    (catchup_gap decompress insertCount symbol f t bs shutdownAt
        results).2.2.ticks_inserted = 0 ∧
    (catchup_gap decompress insertCount symbol f t bs shutdownAt
        results).2.2.status = "success" ∧
    (catchup_gap decompress insertCount symbol f t bs shutdownAt
        results).2.2.hours_failed = 0 ∧
    main_exit (catchup_gap decompress insertCount symbol f t bs shutdownAt
        results).1.ticks_inserted = 1 := by
  have hloop := run_loop_absent decompress insertCount symbol f t bs
    (results.take (shutdown_limit shutdownAt results.length)) (init_state f t)
    (fun r hr => habs r (List.mem_of_mem_take hr)) rfl
  have hbuf : (run_loop decompress insertCount symbol f t bs shutdownAt
      results).tick_buffer = [] := hloop.1
  have hti : (run_loop decompress insertCount symbol f t bs shutdownAt
      results).ticks_inserted = 0 := hloop.2.1
  have hfail : (run_loop decompress insertCount symbol f t bs shutdownAt
      results).progress.failed_hours = [] := hloop.2.2
  refine ⟨?_, ?_, ?_, ?_, ?_, ?_⟩ <;>
    first
    | (intro n
       unfold main_exit
       split <;> omega)
    | (simp only [catchup_gap]
       rw [if_neg (by simp [hbuf])]
       simp [final_report, hti, hfail, main_exit])

/-- Witness for claim C9: a one-unit run whose only fetch returns absent
exits with status 1. -/
theorem c9_exit_code_witness :
    main_exit (catchup_gap (fun _ => none) List.length "EURUSD".toList 0 3600000
        1000000 none [(⟨0, some 0, false, 1⟩, none)]).1.ticks_inserted = 1 ∧
    (catchup_gap (fun _ => none) List.length "EURUSD".toList 0 3600000 1000000 none
        [(⟨0, some 0, false, 1⟩, none)]).2.2.status = "success" := by
  have hc := c9_exit_code (fun _ => none) List.length "EURUSD".toList 0 3600000
    1000000 none [(⟨0, some 0, false, 1⟩, none)] (by decide)
  exact ⟨hc.2.2.2.2.2, hc.2.2.2.1⟩

theorem run_loop_ticks (decompress : List Nat → Option (List Nat))
    (insertCount : List Tick → Nat) (symbol : List Char) (f t bs : Nat) :
    ∀ (rs : List (FetchUnit × Option (List Nat))) (st : RunState),
      (rs.foldl (process_result decompress insertCount symbol f t bs)
          st).progress.ticks_processed =
        st.progress.ticks_processed +
          ((rs.map (filtered_len decompress symbol f t)).sum) := by
  intro rs
  induction rs with
  | nil =>
    intro st
    simp
  | cons r rs ih =>
    intro st
    simp only [List.foldl_cons, List.map_cons, List.sum_cons]
    rw [ih]
    have hstep : (process_result decompress insertCount symbol f t bs
        st r).progress.ticks_processed =
        st.progress.ticks_processed + filtered_len decompress symbol f t r := by
      obtain ⟨u, data⟩ := r
      cases data with
      | none =>
        simp [process_result, filtered_len, Progress.update, flush_step]
      | some bytes =>
        by_cases hby : bytes = []
        · simp [process_result, filtered_len, hby, Progress.update, flush_step]
        · simp only [process_result, filtered_len]
          rw [if_neg hby, if_neg hby]
          by_cases hf : (parse_bi5_data decompress bytes symbol
              (if u.daily then replace_hour0 u.date else u.date)).filter
                (fun tk : Tick => f ≤ tk.time ∧ tk.time ≤ t) = []
          · rw [if_pos hf, hf]
            simp [Progress.update, flush_step]
          · rw [if_neg hf]
            simp [Progress.update, flush_step]
    rw [hstep]
    omega

/-- Claim C10 (confirmed): the cumulative ticks-processed count after any
prefix of processed completions — the value every progress event carries —
and the ticks-processed field of the terminal report both equal the sum,
over the processed units, of the number of decoded ticks that passed the
closed-interval time filter `from_time ≤ t.time ≤ to_time`; decoded ticks
outside the requested window are never counted. -/
theorem c10_ticks_counted (decompress : List Nat → Option (List Nat))
    (insertCount : List Tick → Nat) (symbol : List Char) (f t bs : Nat)
    (shutdownAt : Option Nat) (results : List (FetchUnit × Option (List Nat))) :
    (∀ j : Nat,
      ((results.take j).foldl (process_result decompress insertCount symbol f t bs)
          (init_state f t)).progress.ticks_processed =
        ((results.take j).map (filtered_len decompress symbol f t)).sum) ∧
    (catchup_gap decompress insertCount symbol f t bs shutdownAt
        results).2.2.ticks_processed =
      ((results.take (shutdown_limit shutdownAt results.length)).map
        (filtered_len decompress symbol f t)).sum := by
  have hloop : (run_loop decompress insertCount symbol f t bs shutdownAt
      results).progress.ticks_processed =
      ((results.take (shutdown_limit shutdownAt results.length)).map
        (filtered_len decompress symbol f t)).sum := by
    show ((results.take (shutdown_limit shutdownAt results.length)).foldl
        (process_result decompress insertCount symbol f t bs)
        (init_state f t)).progress.ticks_processed = _
    rw [run_loop_ticks]
    simp [init_state]
  constructor
  · intro j
    rw [run_loop_ticks]
    simp [init_state]
  · simp only [catchup_gap]
    split <;>
    · simp only [final_report]
      exact hloop
